import Mathlib

/-!
Shallow embedding of the ReAPI validation/authorization engine
(`src/index.ts`, class `ReMongo`) and proofs about its behaviour.

JavaScript runtime values reaching the engine (parsed JSON request bodies
and stored documents) are modelled by the inductive `Value`; a thrown
`TypeError` is modelled as `Except.error ()`.  The schema types mirror the
TypeScript types `CollectionFieldValue` / `CollectionFieldValueType` /
`CollectionDescription`.  The abstract document store (MongoDB) is a
parameter, per the repository's own layering: `count`-by-single-field
lookups are a function `Store`, `find` results are passed in as lists.
-/

/-- A JavaScript value as seen by the engine: JSON payloads plus the
`undefined` that property access on a missing key produces. -/
inductive Value where
  | vstr (s : String)
  | vnum (n : Int)
  | vbool (b : Bool)
  | vnull
  | vundefined
  | varr (elems : List Value)
  | vobj (entries : List (String × Value))

/-- JS `typeof`. Arrays, `null` and plain objects are all "object". -/
def jsTypeof : Value → String
  | .vstr _ => "string"
  | .vnum _ => "number"
  | .vbool _ => "boolean"
  | .vnull => "object"
  | .vundefined => "undefined"
  | .varr _ => "object"
  | .vobj _ => "object"

/-- First-match key lookup in an association list (JS object property
lookup; JS objects cannot hold duplicate keys, stored documents are
modelled the same way). -/
def lookupField {α : Type} : List (String × α) → String → Option α
  | [], _ => none
  | (k, v) :: rest, f => if k = f then some v else lookupField rest f

/-- The key/value pairs a JS `for (let k in x)` loop visits, paired with
the value `x[k]`: object entries in insertion order, array and string
indices with their elements/characters, nothing for primitives,
`null` and `undefined`. -/
def forInEntries : Value → List (String × Value)
  | .vobj l => l
  | .varr l => l.enum.map (fun p => (toString p.1, p.2))
  | .vstr s => s.data.enum.map (fun p => (toString p.1, Value.vstr (String.mk [p.2])))
  | _ => []

/-- JS property read `x[f]`: throws (`.error`) on `null`/`undefined`,
yields `undefined` for a missing property. -/
def jsGet : Value → String → Except Unit Value
  | .vnull, _ => .error ()
  | .vundefined, _ => .error ()
  | .vobj l, f => .ok ((lookupField l f).getD .vundefined)
  | .varr l, f =>
      if f = "length" then .ok (.vnum l.length)
      else match f.toNat? with
        | some i => .ok ((l.get? i).getD .vundefined)
        | none => .ok .vundefined
  | .vstr s, f =>
      if f = "length" then .ok (.vnum s.length)
      else match f.toNat? with
        | some i =>
            match s.data.get? i with
            | some c => .ok (.vstr (String.mk [c]))
            | none => .ok .vundefined
        | none => .ok .vundefined
  | _, _ => .ok .vundefined

/-- JS `f in x`: only defined on objects and arrays, throws a `TypeError`
on every primitive, `null` and `undefined`. -/
def jsIn (f : String) : Value → Except Unit Bool
  | .vobj l => .ok (l.any (fun p => p.1 = f))
  | .varr l =>
      .ok (f = "length" ||
        (match f.toNat? with
         | some i => decide (i < l.length)
         | none => false))
  | _ => .error ()

/-- JS strict equality of a runtime value against a string literal
(`x === u` with `u : string`). -/
def strictEqStr : Value → String → Bool
  | .vstr s, u => s = u
  | _, _ => false

/-- A partial model of JS `ToNumber` used by loose equality; `none`
models `NaN` and the coercions (objects, exotic numeric strings) that no
access expression in this development relies on. -/
def toNumberForEq : Value → Option Int
  | .vnum n => some n
  | .vbool b => some (if b then 1 else 0)
  | .vnull => some 0
  | .vstr s => if s.trim = "" then some 0 else s.trim.toInt?
  | _ => none

/-- JS loose equality `==` on the modelled value fragment: same-type
comparison, `null == undefined`, and number/string/boolean coercion via
`toNumberForEq`.  Object operands (whose `ToPrimitive` coercion the model
does not need) compare unequal to everything. -/
def jsLooseEq : Value → Value → Bool
  | .vundefined, .vundefined => true
  | .vundefined, .vnull => true
  | .vnull, .vundefined => true
  | .vnull, .vnull => true
  | .vnum a, .vnum b => a = b
  | .vstr a, .vstr b => a = b
  | .vbool a, .vbool b => a = b
  | .vnum a, .vstr s => toNumberForEq (.vstr s) = some a
  | .vstr s, .vnum a => toNumberForEq (.vstr s) = some a
  | .vbool a, .vnum b => (if a then (1 : Int) else 0) = b
  | .vnum a, .vbool b => (if b then (1 : Int) else 0) = a
  | .vbool a, .vstr s => toNumberForEq (.vstr s) = some (if a then 1 else 0)
  | .vstr s, .vbool a => toNumberForEq (.vstr s) = some (if a then 1 else 0)
  | _, _ => false

/-- `valueForm` of `CollectionFieldValueType`. -/
inductive ValueForm where
  | single
  | array
deriving DecidableEq

mutual
/-- The `valueType` member of `CollectionFieldValueType`: the literal
strings "string" / "number" / "union" or a nested field map. -/
inductive VType where
  | vstring
  | vnumber
  | vunion
  | vobject (fields : List (String × FieldDesc))

/-- `CollectionFieldValue` with its `CollectionFieldValueType` flattened
in: `{type: {valueType, valueForm, unionTypes?}, required, unique,
readonly, secret}`.  The optional lifecycle hooks are modelled separately
(as functions passed to the endpoints) since they are arbitrary
user-supplied code. -/
inductive FieldDesc where
  | mk (valueType : VType) (valueForm : ValueForm)
       (unionTypes : Option (List String))
       (required unique readonly secret : Bool)
end

def FieldDesc.valueType : FieldDesc → VType
  | .mk vt _ _ _ _ _ _ => vt

def FieldDesc.valueForm : FieldDesc → ValueForm
  | .mk _ vf _ _ _ _ _ => vf

def FieldDesc.unionTypes : FieldDesc → Option (List String)
  | .mk _ _ uts _ _ _ _ => uts

def FieldDesc.required : FieldDesc → Bool
  | .mk _ _ _ r _ _ _ => r

def FieldDesc.unique : FieldDesc → Bool
  | .mk _ _ _ _ u _ _ => u

def FieldDesc.readonly : FieldDesc → Bool
  | .mk _ _ _ _ _ ro _ => ro

def FieldDesc.secret : FieldDesc → Bool
  | .mk _ _ _ _ _ _ s => s

/-- Whether a descriptor's declared `valueType` is a nested object map
(the branch condition `!== "string" && !== "number" && !== "union"`). -/
def isObjectType (d : FieldDesc) : Bool :=
  match d.valueType with
  | .vobject _ => true
  | _ => false

/-- The abstract store consulted by the uniqueness checker:
`store f v` is the `count()` of `collection.find({f: v})`. -/
def Store : Type := String → Value → Nat

theorem sizeOf_valueType_lt (d : FieldDesc) : sizeOf d.valueType < sizeOf d := by
  cases d with
  | mk vt vf uts r u ro s => simp [FieldDesc.valueType]; omega

theorem sizeOf_lookupField {α : Type} [SizeOf α] :
    ∀ (l : List (String × α)) (f : String) (d : α),
      lookupField l f = some d → sizeOf d < sizeOf l := by
  intro l
  induction l with
  | nil => intro f d h; simp [lookupField] at h
  | cons p rest ih =>
      intro f d h
      obtain ⟨k, v⟩ := p
      simp only [lookupField] at h
      by_cases hk : k = f
      · simp [hk] at h
        subst h
        simp
        omega
      · simp [hk] at h
        have := ih f d h
        simp
        omega

/-- `#queryHasRequiredFields` (src/index.ts:559): the loop over the schema
field map.  Note the faithful early `return` of the recursive call for the
first object-typed descriptor, which skips all later descriptors. -/
def qhrfGo : List (String × FieldDesc) → Value → Bool → Except Unit Bool
  | [], _, _ => .ok true
  | (field, d) :: rest, query, ov =>
    match h : d.valueType with
    | .vobject sub =>
        match jsGet query field with
        | .error e => .error e
        | .ok subq => qhrfGo sub subq (d.required || ov)
    | _ =>
        if d.required || ov then
          match jsIn field query with
          | .error e => .error e
          | .ok true => qhrfGo rest query ov
          | .ok false => .ok false
        else qhrfGo rest query ov
termination_by fields _ _ => sizeOf fields
decreasing_by
  all_goals simp
  all_goals try omega
  all_goals (have hlt := sizeOf_valueType_lt d; rw [h] at hlt; simp at hlt; omega)

/-- `ReMongo.#queryHasRequiredFields(query, collectionFields, override)`. -/
def queryHasRequiredFields (query : Value)
    (collectionFields : List (String × FieldDesc)) (override : Bool) :
    Except Unit Bool :=
  qhrfGo collectionFields query override

theorem sizeOf_sub_lt {fields : List (String × FieldDesc)} {f : String}
    {d : FieldDesc} {sub : List (String × FieldDesc)}
    (hl : lookupField fields f = some d) (h : d.valueType = .vobject sub) :
    sizeOf sub < sizeOf fields := by
  have h1 := sizeOf_lookupField fields f d hl
  have h2 := sizeOf_valueType_lt d
  rw [h] at h2
  simp at h2
  omega

/-- `#queryHasCorrectTypes` (src/index.ts:578): the loop over the payload's
`for..in` entries.  Faithful to the source, the recursive result for an
object-typed field is computed and then DISCARDED (`this.#queryHasCorrectTypes(...)`
without `return` at line 619); only an exception inside it propagates. -/
def qhctGo : List (String × Value) → List (String × FieldDesc) → Except Unit Bool
  | [], _ => .ok true
  | (field, fval) :: rest, fields =>
    match hl : lookupField fields field with
    | none => .error ()
    | some d =>
      match h : d.valueType with
      | .vstring =>
          if d.valueForm = .single then
            if jsTypeof fval ≠ "string" then .ok false else qhctGo rest fields
          else
            if (forInEntries fval).all (fun e => jsTypeof e.2 = "string") then
              qhctGo rest fields
            else .ok false
      | .vnumber =>
          if d.valueForm = .single then
            if jsTypeof fval ≠ "number" then .ok false else qhctGo rest fields
          else
            if (forInEntries fval).all (fun e => jsTypeof e.2 = "number") then
              qhctGo rest fields
            else .ok false
      | .vunion =>
          match d.unionTypes with
          | none => .error ()
          | some uts =>
            if d.valueForm = .single then
              if uts.any (fun u => strictEqStr fval u) then qhctGo rest fields
              else .ok false
            else
              if (forInEntries fval).all (fun e => uts.any (fun u => strictEqStr e.2 u)) then
                qhctGo rest fields
              else .ok false
      | .vobject sub =>
          match qhctGo (forInEntries fval) sub with
          | .error e => .error e
          | .ok _ => qhctGo rest fields
termination_by entries fields => (sizeOf fields, entries.length)
decreasing_by
  all_goals simp [Prod.lex_iff]
  all_goals
    first
      | omega
      | (have hx := sizeOf_sub_lt (by assumption) (by assumption); omega)

/-- `ReMongo.#queryHasCorrectTypes(query, collectionDescriptionFields)`. -/
def queryHasCorrectTypes (query : Value)
    (collectionDescriptionFields : List (String × FieldDesc)) :
    Except Unit Bool :=
  qhctGo (forInEntries query) collectionDescriptionFields

/-- The dynamic type of the second argument of
`#queryContainsReadonlyFields`: the top-level call passes the schema
field map, but because of the threefold `!== "string"` comparison at
src/index.ts:633 the recursive call passes `type.valueType` itself, which
for `"number"`/`"union"` fields is one of those literal strings. -/
inductive FieldsArg where
  | fmap (fields : List (String × FieldDesc))
  | marker (s : String)

/-- `#queryContainsReadonlyFields` (src/index.ts:631).  The branch
condition in the source compares `valueType` against `"string"` three
times, so `"number"` and `"union"` fields also take the recursion branch,
with the literal string as the new field map; iterating any `for..in` key
against such a marker dereferences `("x").type.valueType` and throws. -/
def qcrfGo : List (String × Value) → FieldsArg → Bool → Except Unit Bool
  | [], _, _ => .ok false
  | (_, _) :: _, .marker _, _ => .error ()
  | (field, fval) :: rest, .fmap fields, ov =>
      match hl : lookupField fields field with
      | none => .error ()
      | some d =>
        match h : d.valueType with
        | .vstring =>
            if d.readonly || ov then .ok true else qcrfGo rest (.fmap fields) ov
        | .vnumber => qcrfGo (forInEntries fval) (.marker "number") (d.readonly || ov)
        | .vunion => qcrfGo (forInEntries fval) (.marker "union") (d.readonly || ov)
        | .vobject sub => qcrfGo (forInEntries fval) (.fmap sub) (d.readonly || ov)
termination_by entries cf _ =>
  ((match cf with
    | .marker _ => 0
    | .fmap fs => 1 + sizeOf fs), entries.length)
decreasing_by
  all_goals simp [Prod.lex_iff]
  all_goals
    first
      | omega
      | (have hx := sizeOf_sub_lt (by assumption) (by assumption); omega)

/-- `ReMongo.#queryContainsReadonlyFields(query, collectionFields, override)`. -/
def queryContainsReadonlyFields (query : Value)
    (collectionFields : List (String × FieldDesc)) (override : Bool) :
    Except Unit Bool :=
  qcrfGo (forInEntries query) (.fmap collectionFields) override

/-- `#queryFulfillsUniqueFields` (src/index.ts:504): loop over the payload
entries; an unknown key returns `false` immediately; the recursive result
for the first object-typed field is returned directly (skipping the rest
of the payload); a non-zero store count for `{field: value}` on a
`unique || override` field is a conflict. -/
def qfufGo (store : Store) : List (String × Value) → List (String × FieldDesc) → Bool → Except Unit Bool
  | [], _, _ => .ok true
  | (field, fval) :: rest, fields, ov =>
    match hl : lookupField fields field with
    | none => .ok false
    | some d =>
      match h : d.valueType with
      | .vobject sub => qfufGo store (forInEntries fval) sub (ov || d.unique)
      | _ =>
          if d.unique || ov then
            if store field fval ≠ 0 then .ok false
            else qfufGo store rest fields ov
          else qfufGo store rest fields ov
termination_by entries fields _ => (sizeOf fields, entries.length)
decreasing_by
  all_goals simp [Prod.lex_iff]
  all_goals
    first
      | omega
      | (have hx := sizeOf_sub_lt (by assumption) (by assumption); omega)

/-- `ReMongo.#queryFulfillsUniqueFields(query, collectionFields, collection, override)`. -/
def queryFulfillsUniqueFields (store : Store) (query : Value)
    (collectionFields : List (String × FieldDesc)) (override : Bool) :
    Except Unit Bool :=
  qfufGo store (forInEntries query) collectionFields override

/-- A stored/candidate document (`CollectionDocument`). -/
abbrev Doc : Type := List (String × Value)

/-- JS property read `doc[f]` on a document that is known to be an object:
`undefined` when the key is missing. -/
def getField (d : Doc) (f : String) : Value :=
  (lookupField d f).getD .vundefined

/-- JS property write `doc[f] = v` on an object: replace an existing key
in place, otherwise append in insertion order. -/
def setField (d : Doc) (f : String) (v : Value) : Doc :=
  if d.any (fun p => p.1 = f) then
    d.map (fun p => if p.1 = f then (f, v) else p)
  else d ++ [(f, v)]

/-- JS `s.substr(0, 1)`, over the character list (Lean's byte-indexed
string primitives do not reduce in the kernel; the character-list model
is observationally the same on our inputs). -/
def jsSubstrFirst (s : String) : String :=
  match s.data with
  | [] => ""
  | a :: _ => String.mk [a]

/-- JS `s.substr(1)`. -/
def jsSubstrRest (s : String) : String :=
  String.mk s.data.tail

/-- JS `s.endsWith(t)` for a one-character `t`. -/
def strLastIs (c : Char) (s : String) : Bool :=
  match s.data.getLast? with
  | some a => a = c
  | none => false

/-- Splitting a character list at every separator occurrence, JS
`String.prototype.split` style (`"".split` gives `[""]`, adjacent
separators give empty pieces). -/
def splitCharList (sep : Char) : List Char → List (List Char)
  | [] => [[]]
  | c :: rest =>
      let r := splitCharList sep rest
      if c = sep then [] :: r
      else
        match r with
        | [] => [[c]]
        | h :: t => (c :: h) :: t

/-- JS `s.split(sep)` for a one-character separator. -/
def jsSplit (sep : Char) (s : String) : List String :=
  (splitCharList sep s.data).map String.mk

/-- One side of a comparison access expression, resolved as in the
`switch` of `#checkAccess` (src/index.ts:718): `$` reads the candidate
document (early `return false` when it is null), `&` reads the user
document (early `return false` when it is null), any other leading
character leaves the expression slot unassigned (`undefined`).
`.error false` models the early `return false`. -/
def resolveSide (s : String) (user doc : Option Doc) : Except Bool Value :=
  if jsSubstrFirst s = "$" then
    match doc with
    | none => .error false
    | some d => .ok (getField d (jsSubstrRest s))
  else if jsSubstrFirst s = "&" then
    match user with
    | none => .error false
    | some u => .ok (getField u (jsSubstrRest s))
  else .ok .vundefined

/-- The `for` loop of `#checkAccess` over every `=`-separated side. -/
def resolveSidesLoop : List String → Option Doc → Option Doc → Except Bool (List Value)
  | [], _, _ => .ok []
  | s :: rest, user, doc =>
    match resolveSide s user doc with
    | .error b => .error b
    | .ok v =>
        match resolveSidesLoop rest user doc with
        | .error b => .error b
        | .ok vs => .ok (v :: vs)

/-- `ReMongo.#checkAccess` (src/index.ts:704).  Sentinels: `@everyone`,
`@noone`, `@everyuser` (the only authench-style sentinel the code knows);
any other `@`-string is false.  Otherwise split on `=` and compare the
first two resolved sides with JS loose equality. -/
def checkAccess (accessString : String) (user doc : Option Doc) : Bool :=
  if jsSubstrFirst accessString = "@" then
    if accessString = "@everyone" then true
    else if accessString = "@noone" then false
    else if accessString = "@everyuser" && user.isSome then true
    else false
  else
    match resolveSidesLoop (jsSplit '=' accessString) user doc with
    | .error b => b
    | .ok vs => jsLooseEq ((vs.get? 0).getD .vundefined) ((vs.get? 1).getD .vundefined)

/-- The `access` member of a `CollectionDescription`: one expression
string per operation kind. -/
structure AccessMap where
  read : String
  delete : String
  edit : String
  info : String
  insert : String

/-- `CollectionDescriptionAccessKey`. -/
inductive AccessKey where
  | read
  | delete
  | edit
  | info
  | insert
deriving DecidableEq

def AccessMap.get : AccessMap → AccessKey → String
  | a, .read => a.read
  | a, .delete => a.delete
  | a, .edit => a.edit
  | a, .info => a.info
  | a, .insert => a.insert

/-- `CollectionDescription` (the optional `custom` payload is opaque data
the engine never reads and is omitted). -/
structure CollectionDescription where
  name : String
  fields : List (String × FieldDesc)
  access : AccessMap

mutual
/-- `ReMongo.#checkFieldsRecursively` (src/index.ts:252).  A `union` field
without `unionTypes` raises the documented Error.  A `union` field WITH
`unionTypes` also fails: `"union" !== "string" && "union" !== "number"`
holds, so the code runs `for (let v in "union")` over the literal string
and recurses on its first character, whose `.type.valueType` dereference
throws a TypeError. -/
def checkFieldsRecursively (d : FieldDesc) : Except String Unit :=
  match h : d.valueType, d.unionTypes with
  | .vunion, none => .error "If the valueType is union, the unionTypes must be set!"
  | .vunion, some _ => .error "TypeError"
  | .vstring, _ => .ok ()
  | .vnumber, _ => .ok ()
  | .vobject sub, _ => checkFieldsList sub
termination_by sizeOf d
decreasing_by
  all_goals
    (have hx := sizeOf_valueType_lt d;
     rw [h] at hx;
     simp at hx;
     omega)

/-- The `for (let v in fields.type.valueType)` loop over a nested object
map, and the caller-side loops over a whole field map. -/
def checkFieldsList : List (String × FieldDesc) → Except String Unit
  | [] => .ok ()
  | (_, d) :: rest =>
    match checkFieldsRecursively d with
    | .error e => .error e
    | .ok () => checkFieldsList rest
termination_by l => sizeOf l
decreasing_by
  all_goals simp
  all_goals omega
end

/-- The `id` descriptor `setCollection` injects (src/index.ts:116):
string, single, not required, unique, readonly, not secret. -/
def idFieldDesc : FieldDesc :=
  .mk .vstring .single none false true true false

def keysOf {α : Type} (l : List (String × α)) : List String :=
  l.map Prod.fst

/-- `ReMongo.setCollection` (src/index.ts:105).  Returns the registered
description (with the injected `id` field) or the message of the thrown
error.  The TypeScript-level exclusion of the name "Users" is a
compile-time type trick with no runtime counterpart, and the string
literals of the thrown errors are abbreviated here. -/
def setCollection (collectionName : String) (cd : Option CollectionDescription) :
    Except String (Option CollectionDescription) :=
  if ¬ strLastIs 's' collectionName then
    .error "Collection names must end with an s."
  else
    match cd with
    | none => .ok none
    | some c =>
      if "id" ∈ keysOf c.fields then
        .error "The id field is added to every CollectionDescription automatically."
      else if c.name ≠ collectionName then
        .error "The collection names must be identical!"
      else
        let fields2 := c.fields ++ [("id", idFieldDesc)]
        match checkFieldsList fields2 with
        | .error e => .error e
        | .ok () => .ok (some { c with fields := fields2 })

/-- Written from the specification text (sections 3 and 4.5), to compare
the code against: an access expression is well-formed when it is one of
the three sentinel literals or a comparison with exactly one `=` whose two
sides each carry a known sigil. -/
def specWellFormedAccess (s : String) : Bool :=
  s = "@everyone" || s = "@noone" || s = "@everyone-authenticated" ||
  (match jsSplit '=' s with
   | [l, r] =>
       (jsSubstrFirst l = "$" || jsSubstrFirst l = "&") &&
       (jsSubstrFirst r = "$" || jsSubstrFirst r = "&")
   | _ => false)

/-- The request-body fields the engine reads (`req.body.*`); absent JSON
members are `vundefined`, matching the `=== undefined` checks in the code. -/
structure Req where
  username : Value
  user_token : Value
  query : Value
  document_data : Value

/-- The client-visible outcome of a request.  The first response the
handler sends wins (a second `res.send` throws on an already-sent
response and changes nothing for the client); `crashed` models an
exception escaping the async handler, in which case no response is
sent at all. -/
inductive Response where
  | unauthorized
  | resNotFound
  | malformedRequest
  | requestFulfilled
  | internalServerError
  | dataDocs (docs : List Doc)
  | crashed

/-- The value `#handleRequest` resolves to: either the accessible
documents (read/edit/delete with a resolved, unexpired caller) or the
boolean collection-level decision. -/
inductive HRes where
  | docs (l : List Doc)
  | flag (b : Bool)

/-- Observable outcome of `#handleRequest`: the response it already sent
(if any), its return value, and whether it fetched candidate documents
from the target collection (`collection.find`). -/
structure HandleOut where
  sent : Option Response
  value : HRes
  fetched : Bool

/-- `ReMongo.#handleRequest` (src/index.ts:651).
`usersFind u t` models the cursor of
`Users.find({$and:[{username: u},{token: t}]})`;
`momentIsBeforeNow v` models the externally supplied time predicate
`moment(v, "DD-MM-YYYY|HH:mm").isBefore(moment())` (the spec treats
"is token still valid" as an external service); `collFind q` models
`collection.find(q)`, with `none` for the driver returning `undefined`. -/
def handleRequest (usersFind : Value → Value → List Doc)
    (momentIsBeforeNow : Value → Bool)
    (collFind : Value → Option (List Doc))
    (cd : CollectionDescription) (accessType : AccessKey) (req : Req) :
    HandleOut :=
  match usersFind req.username req.user_token with
  | [] =>
      if cd.name ≠ "Users" then ⟨some .unauthorized, .flag false, false⟩
      else ⟨none, .flag (checkAccess (cd.access.get accessType) none none), false⟩
  | user :: _ =>
      if momentIsBeforeNow (getField user "token_disallow") then
        ⟨some .unauthorized, .flag false, false⟩
      else if accessType = .read ∨ accessType = .edit ∨ accessType = .delete then
        match req.query with
        | .vundefined => ⟨some .malformedRequest, .flag false, false⟩
        | q =>
            match collFind q with
            | none => ⟨some .resNotFound, .flag false, true⟩
            | some found =>
                ⟨none,
                 .docs (found.filter
                   (fun d => checkAccess (cd.access.get accessType) (some user) (some d))),
                 true⟩
      else ⟨none, .flag (checkAccess (cd.access.get accessType) (some user) none), false⟩

/-- The response post-processing loop of the `/query` endpoint
(src/index.ts:306): for every declared field apply the optional preRead
hook (`preReadHooks x` is field `x`'s hook; an absent hook or a hook that
throws -- result `none` -- leaves the field unchanged, the `catch {}` is
empty), then null out secret fields. -/
def postStep (preReadHooks : String → Option (Value → Option Value))
    (d : Doc) (p : String × FieldDesc) : Doc :=
  let d1 :=
    match preReadHooks p.1 with
    | none => d
    | some hook =>
        match hook (getField d p.1) with
        | none => d
        | some v => setField d p.1 v
  if p.2.secret then setField d1 p.1 .vnull else d1

def postProcessDoc (fields : List (String × FieldDesc))
    (preReadHooks : String → Option (Value → Option Value)) (doc : Doc) : Doc :=
  List.foldl (postStep preReadHooks) doc fields

/-- The `/query` endpoint (src/index.ts:298): run `#handleRequest` for
`read`; a boolean return is the internal-error path; a non-empty document
list is post-processed and returned, an empty one maps to unauthorized. -/
def queryEndpoint (usersFind : Value → Value → List Doc)
    (momentIsBeforeNow : Value → Bool) (collFind : Value → Option (List Doc))
    (cd : CollectionDescription)
    (preReadHooks : String → Option (Value → Option Value)) (req : Req) :
    Response :=
  let h := handleRequest usersFind momentIsBeforeNow collFind cd .read req
  match h.sent with
  | some r => r
  | none =>
      match h.value with
      | .flag _ => .internalServerError
      | .docs access =>
          if access.length > 0 then
            .dataDocs (access.map (postProcessDoc cd.fields preReadHooks))
          else .unauthorized

/-- `#extractCollectionFieldValues` (src/index.ts:545): copies the field
map entry by entry into a fresh map. -/
def extractCollectionFieldValues (cd : CollectionDescription) :
    List (String × FieldDesc) :=
  List.foldl (fun acc p => acc ++ [p]) [] cd.fields

/-- The fill-in loop of the `/insert` endpoint (src/index.ts:420): every
declared field absent from the payload is set to null.  (Expando
properties on an array payload fall outside the modelled value fragment
and leave the value unchanged; `field in primitive` throws as usual.) -/
def fillMissing : List (String × FieldDesc) → Value → Except Unit Value
  | [], dd => .ok dd
  | (field, _) :: rest, dd =>
    match jsIn field dd with
    | .error e => .error e
    | .ok true => fillMissing rest dd
    | .ok false =>
        match dd with
        | .vobj l => fillMissing rest (.vobj (l ++ [(field, .vnull)]))
        | other => fillMissing rest other

/-- Outcome of the `/insert` endpoint: the client-visible response and
whether `insertOne` was reached.  The inserted document's final contents
(id regeneration in `#prepareInsertData` and the preInsert hooks, both
driven by external randomness / user code) affect neither and are not
tracked. -/
structure InsertOut where
  response : Response
  mutated : Bool

/-- The `/insert` endpoint (src/index.ts:395): `#handleRequest` decides
access FIRST; only when it grants does the endpoint check the payload
(required fields, then types, then readonly, then -- after null-filling
missing fields -- uniqueness) and reach `insertOne`. -/
def insertEndpoint (usersFind : Value → Value → List Doc)
    (momentIsBeforeNow : Value → Bool) (collFind : Value → Option (List Doc))
    (store : Store) (cd : CollectionDescription) (req : Req) : InsertOut :=
  let h := handleRequest usersFind momentIsBeforeNow collFind cd .insert req
  match h.sent with
  | some r => ⟨r, false⟩
  | none =>
    match h.value with
    | .docs _ => ⟨.internalServerError, false⟩
    | .flag false => ⟨.unauthorized, false⟩
    | .flag true =>
      match req.document_data with
      | .vundefined => ⟨.malformedRequest, false⟩
      | dd =>
        match queryHasRequiredFields dd cd.fields false with
        | .error _ => ⟨.crashed, false⟩
        | .ok false => ⟨.malformedRequest, false⟩
        | .ok true =>
          match queryHasCorrectTypes dd (extractCollectionFieldValues cd) with
          | .error _ => ⟨.crashed, false⟩
          | .ok false => ⟨.malformedRequest, false⟩
          | .ok true =>
            match queryContainsReadonlyFields dd cd.fields false with
            | .error _ => ⟨.crashed, false⟩
            | .ok true => ⟨.malformedRequest, false⟩
            | .ok false =>
              match fillMissing cd.fields dd with
              | .error _ => ⟨.crashed, false⟩
              | .ok insertData =>
                match queryFulfillsUniqueFields store insertData cd.fields false with
                | .error _ => ⟨.crashed, false⟩
                | .ok false => ⟨.malformedRequest, false⟩
                | .ok true => ⟨.requestFulfilled, true⟩

/-! Concrete schema/request fixtures used across the theorems. -/

def plainStringField : FieldDesc := .mk .vstring .single none false false false false

def requiredStringField : FieldDesc := .mk .vstring .single none true false false false

def uniqueStringField : FieldDesc := .mk .vstring .single none false true false false

def readonlyNumberField : FieldDesc := .mk .vnumber .single none false false true false

def readonlyStringField : FieldDesc := .mk .vstring .single none false false true false

def secretStringField : FieldDesc := .mk .vstring .single none false false false true

def objField (sub : List (String × FieldDesc)) : FieldDesc :=
  .mk (.vobject sub) .single none false false false false

def tasksFields : List (String × FieldDesc) :=
  [("title", requiredStringField), ("owner", plainStringField),
   ("apikey", secretStringField)]

def tasksAccess : AccessMap :=
  { read := "@everyone", delete := "@noone", edit := "@noone",
    info := "@everyone", insert := "@noone" }

def tasksCd : CollectionDescription :=
  { name := "Tasks", fields := tasksFields, access := tasksAccess }

def aliceUserDoc : Doc :=
  [("username", .vstr "alice"), ("token", .vstr "tok"),
   ("token_disallow", .vstr "01-01-2030|00:00")]

def baseReq : Req :=
  { username := .vstr "alice", user_token := .vstr "tok",
    query := .vobj [], document_data := .vobj [] }

/-- C1: the type validator accepts a payload whose nested leaf `x` is a
number although its declared type is string — the recursive result at
src/index.ts:619 is discarded — while the same leaf offered at top level
is rejected.  This refutes "returns false whenever any leaf value in the
payload, at any nesting depth inside object-typed fields, mismatches its
declared scalar kind" and witnesses the divergence from spec section 4.1. -/
theorem C1_nested_type_mismatch_accepted :
    queryHasCorrectTypes (.vobj [("o", .vobj [("x", .vnum 5)])])
      [("o", objField [("x", plainStringField)])] = .ok true ∧
    queryHasCorrectTypes (.vobj [("x", .vnum 5)])
      [("x", plainStringField)] = .ok false := by
  constructor <;>
    simp [queryHasCorrectTypes, qhctGo, forInEntries, lookupField, jsTypeof,
          FieldDesc.valueType, FieldDesc.valueForm, objField, plainStringField]

/-- C3: a payload touching a readonly number field is NOT flagged (the
check returns false): the threefold `!== "string"` comparison at
src/index.ts:633 sends number-typed fields into the recursion with the
literal string "number" as field map, and the `for..in` over the numeric
value runs zero iterations.  A readonly string field IS flagged.  This
refutes "returns true ... including fields whose declared type is number
or union". -/
theorem C3_readonly_number_not_detected :
    queryContainsReadonlyFields (.vobj [("n", .vnum 5)])
      [("n", readonlyNumberField)] false = .ok false ∧
    readonlyNumberField.readonly = true ∧
    queryContainsReadonlyFields (.vobj [("s", .vstr "x")])
      [("s", readonlyStringField)] false = .ok true := by
  refine ⟨?_, rfl, ?_⟩ <;>
    simp [queryContainsReadonlyFields, qcrfGo, forInEntries, lookupField,
          FieldDesc.valueType, FieldDesc.readonly, readonlyNumberField,
          readonlyStringField]

/-- C7 counterexample: the code's authenticated-users sentinel is spelled
`@everyuser`; the spec's `@everyone-authenticated` falls through to the
final `else` of `#checkAccess` and evaluates to false even for a present
user, refuting "`@everyone-authenticated` returns true if and only if the
user is present". -/
theorem C7_authenticated_sentinel_cex :
    checkAccess "@everyone-authenticated" (some aliceUserDoc) (some []) = false := by
  decide

/-- C7 amended: `@everyone` is always true, `@noone` always false, and the
sentinel the code actually knows, `@everyuser`, is true exactly when the
user is present — for every user and document. -/
theorem C7_sentinels :
    ∀ (user doc : Option Doc),
      checkAccess "@everyone" user doc = true ∧
      checkAccess "@noone" user doc = false ∧
      checkAccess "@everyuser" user doc = user.isSome := by
  intro user doc
  have h1 : jsSubstrFirst "@everyone" = "@" := by decide
  have h2 : jsSubstrFirst "@noone" = "@" := by decide
  have h3 : jsSubstrFirst "@everyuser" = "@" := by decide
  refine ⟨by simp [checkAccess, h1], by simp [checkAccess, h2], ?_⟩
  cases user <;> simp [checkAccess, h3]

/-- Whether `setCollection` returns without throwing. -/
def acceptsRegistration (name : String) (cd : Option CollectionDescription) : Bool :=
  match setCollection name cd with
  | .ok _ => true
  | .error _ => false

/-- A description whose five access expressions are all malformed in the
sense of the specification (no `=`, no sentinel, no sigil). -/
def cdBadAccess : CollectionDescription :=
  { name := "Tasks"
    fields := [("title", plainStringField)]
    access :=
      { read := "garbage", delete := "garbage", edit := "garbage",
        info := "garbage", insert := "garbage" } }

/-- C8 counterexample: `setCollection` accepts a description all of whose
access expression strings are malformed (no sentinel, no `=`, no sigil),
refuting "a description containing a malformed access expression is
rejected at registration time". -/
theorem C8_malformed_access_accepted :
    acceptsRegistration "Tasks" (some cdBadAccess) = true ∧
    cdBadAccess.access.read = "garbage" ∧
    specWellFormedAccess "garbage" = false := by
  refine ⟨?_, rfl, by decide⟩
  have hset : setCollection "Tasks" (some cdBadAccess) =
      .ok (some { cdBadAccess with
                    fields := cdBadAccess.fields ++ [("id", idFieldDesc)] }) := by
    unfold setCollection
    rw [if_neg (by decide)]
    simp only [cdBadAccess]
    rw [if_neg (by simp [keysOf])]
    rw [if_neg (by simp)]
    have hcf : checkFieldsList ([("title", plainStringField)] ++ [("id", idFieldDesc)]) =
        .ok () := by
      simp [checkFieldsList, checkFieldsRecursively, plainStringField, idFieldDesc,
            FieldDesc.valueType, FieldDesc.unionTypes]
    rw [hcf]
  unfold acceptsRegistration
  rw [hset]

/-- C8 amended: registration never inspects the access expression
strings — whether `setCollection` accepts a description is invariant
under replacing its whole access map. -/
theorem C8_registration_ignores_access :
    ∀ (name : String) (c : CollectionDescription) (a1 a2 : AccessMap),
      acceptsRegistration name (some { c with access := a1 }) =
      acceptsRegistration name (some { c with access := a2 }) := by
  intro name c a1 a2
  simp only [acceptsRegistration, setCollection]
  rcases h1 : strLastIs 's' name with _ | _ <;> simp [h1]
  rcases h2 : decide ("id" ∈ keysOf c.fields) with _ | _ <;>
    simp [of_decide_eq_true, of_decide_eq_false] at h2 <;> simp [h2]
  rcases h3 : decide (c.name = name) with _ | _ <;>
    simp [of_decide_eq_true, of_decide_eq_false] at h3 <;> simp [h3]
  rcases h4 : checkFieldsList (c.fields ++ [("id", idFieldDesc)]) with e | u <;>
    simp [h4]

/-- C6: for every operation kind, a resolved caller whose
`token_disallow` timestamp is already in the past is denied with the
unauthorized response, `#handleRequest` returns false, and no candidate
documents are fetched from the target collection. -/
theorem C6_expired_session_denied :
    ∀ (usersFind : Value → Value → List Doc) (momentIsBeforeNow : Value → Bool)
      (collFind : Value → Option (List Doc)) (cd : CollectionDescription)
      (accessType : AccessKey) (req : Req) (user : Doc) (rest : List Doc),
      usersFind req.username req.user_token = user :: rest →
      momentIsBeforeNow (getField user "token_disallow") = true →
      handleRequest usersFind momentIsBeforeNow collFind cd accessType req =
        ⟨some .unauthorized, .flag false, false⟩ := by
  intro usersFind momentIsBeforeNow collFind cd accessType req user rest h1 h2
  simp [handleRequest, h1, h2]

/-- C6 witness at a concrete instantiation. -/
theorem C6_expired_session_denied_witness :
    handleRequest (fun _ _ => [aliceUserDoc]) (fun _ => true) (fun _ => none)
      tasksCd .read baseReq = ⟨some .unauthorized, .flag false, false⟩ :=
  C6_expired_session_denied (fun _ _ => [aliceUserDoc]) (fun _ => true)
    (fun _ => none) tasksCd .read baseReq aliceUserDoc [] rfl rfl

/-- C5 counterexample: on the insert path the access decision comes
first.  A resolved, unexpired caller denied by the collection's insert
rule (`@noone`) receives the unauthorized response even though the
payload also fails the required-fields validation — refuting "a payload
that fails any validation step produces the malformed-request signal ...
for every caller and payload". -/
theorem C5_denied_caller_not_malformed :
    (insertEndpoint (fun _ _ => [aliceUserDoc]) (fun _ => false) (fun _ => none)
        (fun _ _ => 0) tasksCd baseReq).response = .unauthorized ∧
    queryHasRequiredFields baseReq.document_data tasksCd.fields false = .ok false := by
  constructor
  · have hca : checkAccess "@noone" (some aliceUserDoc) none = false := by decide
    simp [insertEndpoint, handleRequest, tasksCd, tasksAccess, AccessMap.get,
          baseReq, hca]
  · simp [queryHasRequiredFields, qhrfGo, jsIn, jsGet, lookupField, baseReq,
          tasksCd, tasksFields, requiredStringField, plainStringField,
          secretStringField, FieldDesc.valueType, FieldDesc.required]

/-- C5 amended: on the insert path the access check runs first and its
result gates the validations and the mutation.  When access is granted,
each failing validation step (missing required field, wrong types,
readonly violation, uniqueness conflict on the null-filled payload)
yields the malformed-request response without mutating the store; when
access is denied the response is unauthorized regardless of the payload;
the two signals are distinct. -/
theorem C5_validation_after_access_grant :
    ∀ (usersFind : Value → Value → List Doc) (momentIsBeforeNow : Value → Bool)
      (collFind : Value → Option (List Doc)) (store : Store)
      (cd : CollectionDescription) (req : Req),
      ((handleRequest usersFind momentIsBeforeNow collFind cd .insert req).sent = none →
        ((handleRequest usersFind momentIsBeforeNow collFind cd .insert req).value = .flag false →
           insertEndpoint usersFind momentIsBeforeNow collFind store cd req =
             ⟨.unauthorized, false⟩) ∧
        ((handleRequest usersFind momentIsBeforeNow collFind cd .insert req).value = .flag true →
           (queryHasRequiredFields req.document_data cd.fields false = .ok false →
              insertEndpoint usersFind momentIsBeforeNow collFind store cd req =
                ⟨.malformedRequest, false⟩) ∧
           (queryHasRequiredFields req.document_data cd.fields false = .ok true →
            queryHasCorrectTypes req.document_data (extractCollectionFieldValues cd) = .ok false →
              insertEndpoint usersFind momentIsBeforeNow collFind store cd req =
                ⟨.malformedRequest, false⟩) ∧
           (queryHasRequiredFields req.document_data cd.fields false = .ok true →
            queryHasCorrectTypes req.document_data (extractCollectionFieldValues cd) = .ok true →
            queryContainsReadonlyFields req.document_data cd.fields false = .ok true →
              insertEndpoint usersFind momentIsBeforeNow collFind store cd req =
                ⟨.malformedRequest, false⟩) ∧
           (∀ idata : Value,
              queryHasRequiredFields req.document_data cd.fields false = .ok true →
              queryHasCorrectTypes req.document_data (extractCollectionFieldValues cd) = .ok true →
              queryContainsReadonlyFields req.document_data cd.fields false = .ok false →
              fillMissing cd.fields req.document_data = .ok idata →
              queryFulfillsUniqueFields store idata cd.fields false = .ok false →
                insertEndpoint usersFind momentIsBeforeNow collFind store cd req =
                  ⟨.malformedRequest, false⟩))) ∧
      Response.malformedRequest ≠ Response.unauthorized := by
  intro usersFind momentIsBeforeNow collFind store cd req
  constructor
  · intro hsent
    constructor
    · intro hval
      simp [insertEndpoint, hsent, hval]
    · intro hval
      refine ⟨?_, ?_, ?_, ?_⟩
      · intro h1
        cases hdd : req.document_data <;> rw [hdd] at h1 <;>
          simp [insertEndpoint, hsent, hval, hdd, h1]
      · intro h1 h2
        cases hdd : req.document_data <;> rw [hdd] at h1 h2 <;>
          simp [insertEndpoint, hsent, hval, hdd, h1, h2]
      · intro h1 h2 h3
        cases hdd : req.document_data <;> rw [hdd] at h1 h2 h3 <;>
          simp [insertEndpoint, hsent, hval, hdd, h1, h2, h3]
      · intro idata h1 h2 h3 h4 h5
        cases hdd : req.document_data <;> rw [hdd] at h1 h2 h3 h4 <;>
          simp [insertEndpoint, hsent, hval, hdd, h1, h2, h3, h4, h5]
  · intro h
    exact Response.noConfusion h

/-- C5 witness at a concrete instantiation: denied caller, payload
missing a required field, unauthorized response. -/
theorem C5_validation_after_access_grant_witness :
    insertEndpoint (fun _ _ => [aliceUserDoc]) (fun _ => false) (fun _ => none)
      (fun _ _ => 0) tasksCd baseReq = ⟨.unauthorized, false⟩ :=
  ((C5_validation_after_access_grant (fun _ _ => [aliceUserDoc]) (fun _ => false)
      (fun _ => none) (fun _ _ => 0) tasksCd baseReq).1 (by rfl)).1 (by rfl)

theorem qhrfGo_cons_scalar (f : String) (d : FieldDesc)
    (rest : List (String × FieldDesc)) (query : Value) (ov : Bool)
    (hdo : isObjectType d = false) :
    qhrfGo ((f, d) :: rest) query ov =
      if (d.required || ov) = true then
        match jsIn f query with
        | .error e => .error e
        | .ok true => qhrfGo rest query ov
        | .ok false => .ok false
      else qhrfGo rest query ov := by
  cases d with
  | mk vt vf uts r u ro se =>
    cases vt <;> simp_all [isObjectType, FieldDesc.valueType, qhrfGo]

theorem qhrfGo_flat_iff :
    ∀ (fields : List (String × FieldDesc)) (l : List (String × Value)) (ov : Bool),
      (∀ p ∈ fields, isObjectType p.2 = false) →
      (qhrfGo fields (.vobj l) ov = .ok false ↔
        ∃ p ∈ fields, (p.2.required || ov) = true ∧
          l.any (fun q => q.1 = p.1) = false) := by
  intro fields
  induction fields with
  | nil =>
      intro l ov hflat
      simp [qhrfGo]
  | cons hd rest ih =>
      intro l ov hflat
      obtain ⟨f, d⟩ := hd
      have hrest : ∀ p ∈ rest, isObjectType p.2 = false := by
        intro p hp
        exact hflat p (by simp [hp])
      rw [qhrfGo_cons_scalar f d rest _ ov (hflat (f, d) (by simp))]
      by_cases hreq : (d.required || ov) = true
      · rw [if_pos hreq]
        rcases hany : l.any (fun q => q.1 = f) with _ | _
        · simp only [jsIn, hany]
          constructor
          · intro _
            exact ⟨(f, d), by simp, hreq, hany⟩
          · intro _
            trivial
        · simp only [jsIn, hany]
          rw [ih l ov hrest]
          constructor
          · rintro ⟨p, hp, h1, h2⟩
            exact ⟨p, by simp [hp], h1, h2⟩
          · rintro ⟨p, hp, h1, h2⟩
            rcases List.mem_cons.mp hp with heq | hmem
            · subst heq
              simp only [List.any_eq_true, decide_eq_true_eq] at hany
              obtain ⟨q, hq, hqf⟩ := hany
              simp at h2
              exact absurd hqf (h2 q.1 q.2 (by simpa using hq))
            · exact ⟨p, hmem, h1, h2⟩
      · rw [if_neg hreq]
        rw [ih l ov hrest]
        constructor
        · rintro ⟨p, hp, h1, h2⟩
          exact ⟨p, by simp [hp], h1, h2⟩
        · rintro ⟨p, hp, h1, h2⟩
          rcases List.mem_cons.mp hp with heq | hmem
          · subst heq
            simp at h1
            exact absurd h1 (by simpa using hreq)
          · exact ⟨p, hmem, h1, h2⟩

def cexC2Fields : List (String × FieldDesc) :=
  [("a", objField []), ("b", requiredStringField)]

/-- C2 counterexample: the schema declares an object field `a` followed by
a required field `b`; the empty payload lacks `b`, yet the check returns
true, because the loop `return`s the recursive result for the first
object-typed descriptor and never examines `b` (src/index.ts:562).  This
refutes "returns false if and only if some Field Descriptor with required
true ... has no corresponding key in the payload, examining every Field
Descriptor ... including those after a nested-object field". -/
theorem C2_required_field_after_object_skipped :
    queryHasRequiredFields (.vobj []) cexC2Fields false = .ok true ∧
    lookupField cexC2Fields "b" = some requiredStringField ∧
    requiredStringField.required = true ∧
    jsIn "b" (.vobj []) = .ok false := by
  refine ⟨?_, by simp [cexC2Fields, lookupField], rfl, rfl⟩
  simp [queryHasRequiredFields, qhrfGo, cexC2Fields, objField, jsGet,
        lookupField, FieldDesc.valueType, FieldDesc.required,
        requiredStringField]

/-- C2 amended: (1) for schemas whose top-level descriptors are all
non-object, the required-fields check returns false iff some descriptor
with `required OR override` true has no corresponding key in the object
payload; (2) as soon as a descriptor is object-typed, the function
returns the recursive result for it and the descriptors after it are
never examined (the result is independent of what follows). -/
theorem C2_required_check_characterization :
    (∀ (fields : List (String × FieldDesc)) (l : List (String × Value)) (ov : Bool),
      (∀ p ∈ fields, isObjectType p.2 = false) →
      (queryHasRequiredFields (.vobj l) fields ov = .ok false ↔
        ∃ p ∈ fields, (p.2.required || ov) = true ∧
          l.any (fun q => q.1 = p.1) = false)) ∧
    (∀ (field : String) (d : FieldDesc) (sub rest1 rest2 : List (String × FieldDesc))
       (query : Value) (ov : Bool),
      d.valueType = .vobject sub →
      queryHasRequiredFields query ((field, d) :: rest1) ov =
        queryHasRequiredFields query ((field, d) :: rest2) ov) := by
  constructor
  · intro fields l ov hflat
    simpa [queryHasRequiredFields] using qhrfGo_flat_iff fields l ov hflat
  · intro field d sub rest1 rest2 query ov hvt
    cases d with
    | mk vt vf uts r u ro se =>
      simp [FieldDesc.valueType] at hvt
      subst hvt
      simp only [queryHasRequiredFields, qhrfGo, FieldDesc.valueType]

/-- C2 witness: the amended characterization detects a missing required
field in a flat schema. -/
theorem C2_required_check_characterization_witness :
    queryHasRequiredFields (.vobj []) [("b", requiredStringField)] false = .ok false :=
  (C2_required_check_characterization.1 [("b", requiredStringField)] [] false
      (by intro p hp; simp at hp; simp [hp, isObjectType, requiredStringField,
                                        FieldDesc.valueType])).mpr
    ⟨("b", requiredStringField), by simp, rfl, rfl⟩

theorem qfufGo_cons_unknown (store : Store) (f : String) (fval : Value)
    (rest : List (String × Value)) (fields : List (String × FieldDesc)) (ov : Bool)
    (hl : lookupField fields f = none) :
    qfufGo store ((f, fval) :: rest) fields ov = .ok false := by
  simp only [qfufGo]
  split
  · rfl
  · rename_i d' heq
    rw [hl] at heq
    simp at heq

theorem qfufGo_cons_scalar (store : Store) (f : String) (fval : Value) (d : FieldDesc)
    (rest : List (String × Value)) (fields : List (String × FieldDesc)) (ov : Bool)
    (hl : lookupField fields f = some d) (hdo : isObjectType d = false) :
    qfufGo store ((f, fval) :: rest) fields ov =
      if (d.unique || ov) = true then
        if store f fval ≠ 0 then .ok false else qfufGo store rest fields ov
      else qfufGo store rest fields ov := by
  simp only [qfufGo]
  split
  · simp_all
  · rename_i d' heq
    rw [hl] at heq
    injection heq with heq2
    subst heq2
    split
    · rename_i sub hvt
      simp [isObjectType, hvt] at hdo
    · rfl

theorem qfufGo_cons_object (store : Store) (f : String) (fval : Value) (d : FieldDesc)
    (sub : List (String × FieldDesc)) (rest : List (String × Value))
    (fields : List (String × FieldDesc)) (ov : Bool)
    (hl : lookupField fields f = some d) (hvt : d.valueType = .vobject sub) :
    qfufGo store ((f, fval) :: rest) fields ov =
      qfufGo store (forInEntries fval) sub (ov || d.unique) := by
  simp only [qfufGo]
  split
  · simp_all
  · rename_i d' heq
    rw [hl] at heq
    injection heq with heq2
    subst heq2
    split
    · rename_i sub' hvt'
      rw [hvt] at hvt'
      injection hvt' with h3
      subst h3
      rfl
    · rename_i hne
      exact absurd hvt (hne sub)

theorem qfufGo_flat_iff :
    ∀ (l : List (String × Value)) (fields : List (String × FieldDesc))
      (store : Store) (ov : Bool),
      (∀ p ∈ l, ∀ d, lookupField fields p.1 = some d → isObjectType d = false) →
      (qfufGo store l fields ov = .ok true ↔
        ∀ p ∈ l, ∃ d, lookupField fields p.1 = some d ∧
          ((d.unique || ov) = true → store p.1 p.2 = 0)) := by
  intro l
  induction l with
  | nil =>
      intro fields store ov hflat
      simp [qfufGo]
  | cons hd rest ih =>
      intro fields store ov hflat
      obtain ⟨f, v⟩ := hd
      have hrest : ∀ p ∈ rest, ∀ d, lookupField fields p.1 = some d →
          isObjectType d = false := by
        intro p hp
        exact hflat p (by simp [hp])
      rcases hl : lookupField fields f with _ | d
      · rw [qfufGo_cons_unknown store f v rest fields ov hl]
        simp [hl]
      · have hdo : isObjectType d = false := hflat (f, v) (by simp) d hl
        rw [qfufGo_cons_scalar store f v d rest fields ov hl hdo]
        by_cases huniq : (d.unique || ov) = true
        · rw [if_pos huniq]
          by_cases hcnt : store f v = 0
          · rw [if_neg (by simp [hcnt])]
            rw [ih fields store ov hrest]
            simp only [List.forall_mem_cons]
            constructor
            · intro hr
              exact ⟨⟨d, hl, fun _ => hcnt⟩, hr⟩
            · intro hr
              exact hr.2
          · rw [if_pos hcnt]
            simp only [List.forall_mem_cons]
            constructor
            · intro hfalse
              exact absurd hfalse (by simp)
            · rintro ⟨⟨d', hl', himp⟩, _⟩
              rw [hl] at hl'
              injection hl' with h2
              subst h2
              exact absurd (himp huniq) hcnt
        · rw [if_neg huniq]
          rw [ih fields store ov hrest]
          simp only [List.forall_mem_cons]
          constructor
          · intro hr
            exact ⟨⟨d, hl, fun h => absurd h huniq⟩, hr⟩
          · intro hr
            exact hr.2

def storeB : Store := fun f _ => if f = "b" then 1 else 0

def cexC4Fields : List (String × FieldDesc) :=
  [("a", objField []), ("b", uniqueStringField)]

/-- C4 counterexample: the payload names the object field `a` (empty
sub-payload) before the unique field `b`, whose value collides in the
store; the check nevertheless returns true, because the loop `return`s
the recursive result for the first object-typed payload field
(src/index.ts:510) and `b` is never examined.  This refutes "returns true
only when every such field in the payload, including fields after a
nested-object field, has a zero match count". -/
theorem C4_conflict_after_object_skipped :
    queryFulfillsUniqueFields storeB
      (.vobj [("a", .vobj []), ("b", .vstr "x")]) cexC4Fields false = .ok true ∧
    lookupField cexC4Fields "b" = some uniqueStringField ∧
    uniqueStringField.unique = true ∧
    storeB "b" (.vstr "x") = 1 := by
  refine ⟨?_, by simp [cexC4Fields, lookupField, objField], rfl, rfl⟩
  simp [queryFulfillsUniqueFields, qfufGo, forInEntries, cexC4Fields,
        lookupField, objField, FieldDesc.valueType]

/-- C4 amended: (1) when no examined payload field is object-typed, the
uniqueness check returns true iff every payload field is declared and
every unique-or-overridden one has a zero store match count; (2) a child
value nested under a `unique` parent is checked against the store even
though its own descriptor is not unique (the deliberate override
strictness), and a non-zero count is a conflict; (3) the recursive result
for the first object-typed payload field is returned directly — the
outcome is independent of the payload fields after it. -/
theorem C4_unique_check_characterization :
    (∀ (l : List (String × Value)) (fields : List (String × FieldDesc))
       (store : Store) (ov : Bool),
      (∀ p ∈ l, ∀ d, lookupField fields p.1 = some d → isObjectType d = false) →
      (queryFulfillsUniqueFields store (.vobj l) fields ov = .ok true ↔
        ∀ p ∈ l, ∃ d, lookupField fields p.1 = some d ∧
          ((d.unique || ov) = true → store p.1 p.2 = 0))) ∧
    (∀ (store : Store) (c : String) (v : Value) (d : FieldDesc)
       (vf : ValueForm) (uts : Option (List String)) (r ro se : Bool),
      isObjectType d = false → d.unique = false → store c v ≠ 0 →
      queryFulfillsUniqueFields store (.vobj [("p", .vobj [(c, v)])])
        [("p", .mk (.vobject [(c, d)]) vf uts r true ro se)] false = .ok false) ∧
    (∀ (store : Store) (field : String) (fval : Value)
       (rest1 rest2 : List (String × Value)) (fields : List (String × FieldDesc))
       (ov : Bool) (d : FieldDesc) (sub : List (String × FieldDesc)),
      lookupField fields field = some d → d.valueType = .vobject sub →
      queryFulfillsUniqueFields store (.vobj ((field, fval) :: rest1)) fields ov =
        queryFulfillsUniqueFields store (.vobj ((field, fval) :: rest2)) fields ov) := by
  refine ⟨?_, ?_, ?_⟩
  · intro l fields store ov hflat
    simpa [queryFulfillsUniqueFields, forInEntries] using
      qfufGo_flat_iff l fields store ov hflat
  · intro store c v d vf uts r ro se hdo huniq hcnt
    simp only [queryFulfillsUniqueFields, forInEntries]
    rw [qfufGo_cons_object store "p" (.vobj [(c, v)])
          (.mk (.vobject [(c, d)]) vf uts r true ro se) [(c, d)] []
          [("p", .mk (.vobject [(c, d)]) vf uts r true ro se)] false
          (by simp [lookupField]) (by simp [FieldDesc.valueType])]
    rw [show forInEntries (.vobj [(c, v)]) = [(c, v)] from rfl]
    rw [qfufGo_cons_scalar store c v d [] [(c, d)]
          (false || FieldDesc.unique (.mk (.vobject [(c, d)]) vf uts r true ro se))
          (by simp [lookupField]) hdo]
    simp [FieldDesc.unique, huniq, hcnt]
  · intro store field fval rest1 rest2 fields ov d sub hl hvt
    simp only [queryFulfillsUniqueFields, forInEntries]
    rw [qfufGo_cons_object store field fval d sub rest1 fields ov hl hvt,
        qfufGo_cons_object store field fval d sub rest2 fields ov hl hvt]

/-- C4 witness: the override strictness conjunct at a concrete store and
schema — a non-unique child under a unique parent still conflicts. -/
theorem C4_unique_check_characterization_witness :
    queryFulfillsUniqueFields (fun _ _ => 1)
      (.vobj [("p", .vobj [("c", .vstr "x")])])
      [("p", .mk (.vobject [("c", plainStringField)]) .single none false true false false)]
      false = .ok false :=
  C4_unique_check_characterization.2.1 (fun _ _ => 1) "c" (.vstr "x")
    plainStringField .single none false false false rfl rfl (by simp)

/-- C10 counterexample: a payload with the unknown top-level key `zzz`
placed after the object-typed field `a` passes the uniqueness check,
because the loop returns the recursive result for `a` before ever
examining `zzz` — refuting "for every payload containing a top-level key
that is absent from the schema's field map, the uniqueness check returns
false". -/
theorem C10_unknown_key_after_object_passes :
    queryFulfillsUniqueFields (fun _ _ => 0)
      (.vobj [("a", .vobj []), ("zzz", .vnum 1)]) [("a", objField [])] false = .ok true ∧
    lookupField [("a", objField [])] "zzz" = none := by
  refine ⟨?_, by simp [lookupField]⟩
  simp [queryFulfillsUniqueFields, qfufGo, forInEntries, lookupField, objField,
        FieldDesc.valueType]

/-- C10 amended: the uniqueness check returns false for a payload with an
unknown top-level key whenever that key is actually examined — that is,
whenever every payload field before it is declared with a non-object
type.  (An unknown key after the first object-typed payload field is
never examined; see the counterexample.) -/
theorem C10_unknown_key_rejected_when_examined :
    ∀ (store : Store) (fields : List (String × FieldDesc))
      (pre : List (String × Value)) (k : String) (v : Value)
      (rest : List (String × Value)) (ov : Bool),
      (∀ p ∈ pre, ∃ d, lookupField fields p.1 = some d ∧ isObjectType d = false) →
      lookupField fields k = none →
      queryFulfillsUniqueFields store (.vobj (pre ++ (k, v) :: rest)) fields ov =
        .ok false := by
  intro store fields pre
  induction pre with
  | nil =>
      intro k v rest ov _ hk
      simpa [queryFulfillsUniqueFields, forInEntries] using
        qfufGo_cons_unknown store k v rest fields ov hk
  | cons hd tl ih =>
      intro k v rest ov hpre hk
      obtain ⟨f, w⟩ := hd
      obtain ⟨d, hl, hdo⟩ := hpre (f, w) (by simp)
      have htl : ∀ p ∈ tl, ∃ d, lookupField fields p.1 = some d ∧
          isObjectType d = false := by
        intro p hp
        exact hpre p (by simp [hp])
      have ihr := ih k v rest ov htl hk
      simp only [queryHasRequiredFields, queryFulfillsUniqueFields,
                 forInEntries, List.cons_append] at ihr ⊢
      rw [qfufGo_cons_scalar store f w d (tl ++ (k, v) :: rest) fields ov hl hdo]
      by_cases huniq : (d.unique || ov) = true
      · rw [if_pos huniq]
        by_cases hcnt : store f w = 0
        · rw [if_neg (by simp [hcnt])]
          exact ihr
        · rw [if_pos hcnt]
      · rw [if_neg huniq]
        exact ihr

/-- C10 witness: an unknown leading key is rejected. -/
theorem C10_unknown_key_rejected_witness :
    queryFulfillsUniqueFields (fun _ _ => 0) (.vobj [("zzz", .vnum 1)])
      [("a", objField [])] false = .ok false :=
  C10_unknown_key_rejected_when_examined (fun _ _ => 0) [("a", objField [])]
    [] "zzz" (.vnum 1) [] false (by simp) (by simp [lookupField])

theorem lookupField_append {α : Type} (l1 l2 : List (String × α)) (y : String) :
    lookupField (l1 ++ l2) y =
      match lookupField l1 y with
      | some v => some v
      | none => lookupField l2 y := by
  induction l1 with
  | nil => simp [lookupField]
  | cons p rest ih =>
      obtain ⟨k, v⟩ := p
      by_cases hk : k = y <;> simp [lookupField, hk, ih]

theorem lookupField_map_update {α : Type} (l : List (String × α)) (f y : String) (v : α) :
    lookupField (l.map (fun p => if p.1 = f then (f, v) else p)) y =
      if y = f then
        match lookupField l f with
        | some _ => some v
        | none => none
      else lookupField l y := by
  induction l with
  | nil => by_cases hy : y = f <;> simp [lookupField, hy]
  | cons p rest ih =>
      obtain ⟨k, w⟩ := p
      simp only [List.map_cons]
      by_cases hk : k = f
      · subst hk
        rw [show (if ((k, w) : String × α).1 = k then (k, v) else (k, w)) = (k, v) from
              by simp]
        by_cases hy : y = k
        · subst hy
          simp [lookupField, ih]
        · have hky : ¬ k = y := fun h => hy h.symm
          simp [lookupField, hy, hky, ih]
      · rw [show (if ((k, w) : String × α).1 = f then (f, v) else (k, w)) = (k, w) from
              by simp [hk]]
        by_cases hky : k = y
        · subst hky
          simp [lookupField, hk, ih]
        · simp [lookupField, hk, hky, ih]

theorem lookupField_eq_none_of_any_false {α : Type} (l : List (String × α)) (f : String)
    (h : l.any (fun p => p.1 = f) = false) : lookupField l f = none := by
  induction l with
  | nil => simp [lookupField]
  | cons p rest ih =>
      simp only [List.any_cons, Bool.or_eq_false_iff] at h
      obtain ⟨h1, h2⟩ := h
      simp only [lookupField]
      rw [if_neg (by simpa using h1)]
      exact ih h2

theorem lookupField_isSome_of_any {α : Type} (l : List (String × α)) (f : String)
    (h : l.any (fun p => p.1 = f) = true) : ∃ w, lookupField l f = some w := by
  induction l with
  | nil => simp at h
  | cons p rest ih =>
      obtain ⟨k, w⟩ := p
      by_cases hk : k = f
      · exact ⟨w, by simp [lookupField, hk]⟩
      · simp only [List.any_cons, Bool.or_eq_true] at h
        rcases h with h1 | h2
        · exact absurd (by simpa using h1) hk
        · obtain ⟨w2, hw2⟩ := ih h2
          exact ⟨w2, by simp [lookupField, hk, hw2]⟩

theorem getField_setField (d : Doc) (f : String) (v : Value) (y : String) :
    getField (setField d f v) y = if y = f then v else getField d y := by
  unfold setField
  by_cases hany : d.any (fun p => p.1 = f)
  · rw [if_pos hany]
    unfold getField
    rw [lookupField_map_update]
    obtain ⟨w, hw⟩ := lookupField_isSome_of_any d f hany
    by_cases hy : y = f
    · simp [hy, hw]
    · simp [hy]
  · rw [if_neg hany]
    unfold getField
    rw [lookupField_append]
    have hanyf : d.any (fun p => p.1 = f) = false := by
      cases hx : d.any (fun p => p.1 = f)
      · rfl
      · exact absurd hx hany
    have hnone : lookupField d f = none :=
      lookupField_eq_none_of_any_false d f hanyf
    by_cases hy : y = f
    · subst hy
      simp [hnone, lookupField]
    · have hfy : ¬ f = y := fun h => hy h.symm
      rcases hl : lookupField d y with _ | w
      · simp [lookupField, hy, hfy, hl]
      · simp [hl, hy]

/-- The value field `x` holds after its preRead hook ran (unchanged when
the hook is absent or threw). -/
def hookVal (hooks : String → Option (Value → Option Value)) (x : String)
    (v : Value) : Value :=
  match hooks x with
  | none => v
  | some hk =>
      match hk v with
      | none => v
      | some w => w

/-- Whether `y` names a secret declared field. -/
def secretKey (fields : List (String × FieldDesc)) (y : String) : Bool :=
  match lookupField fields y with
  | some d => d.secret
  | none => false

theorem postStep_getField (hooks : String → Option (Value → Option Value))
    (x : String) (fd : FieldDesc) (d : Doc) (y : String) :
    getField (postStep hooks d (x, fd)) y =
      if y = x then (if fd.secret then .vnull else hookVal hooks x (getField d x))
      else getField d y := by
  unfold postStep hookVal
  rcases hh : hooks x with _ | hk
  · by_cases hxy : y = x <;> rcases hs : fd.secret with _ | _ <;>
      simp [hxy, hs, getField_setField]
  · rcases hv : hk (getField d x) with _ | w <;>
      by_cases hxy : y = x <;> rcases hs : fd.secret with _ | _ <;>
      simp [hxy, hs, hv, getField_setField]

theorem postFold_preserve (hooks : String → Option (Value → Option Value)) :
    ∀ (fields : List (String × FieldDesc)) (d : Doc) (y : String),
      y ∉ keysOf fields →
      getField (List.foldl (postStep hooks) d fields) y = getField d y := by
  intro fields
  induction fields with
  | nil => intro d y _; rfl
  | cons p rest ih =>
      intro d y hy
      obtain ⟨x, fd⟩ := p
      have hyx : y ≠ x := by
        intro h
        exact hy (by simp [keysOf, h])
      have hyrest : y ∉ keysOf rest := by
        intro h
        exact hy (by simp [keysOf] at h ⊢; exact Or.inr h)
      simp only [List.foldl_cons]
      rw [ih (postStep hooks d (x, fd)) y hyrest, postStep_getField, if_neg hyx]

theorem postFold_secret (hooks : String → Option (Value → Option Value)) :
    ∀ (fields : List (String × FieldDesc)) (d : Doc) (x : String) (fd : FieldDesc),
      (keysOf fields).Nodup → (x, fd) ∈ fields → fd.secret = true →
      getField (List.foldl (postStep hooks) d fields) x = .vnull := by
  intro fields
  induction fields with
  | nil => intro d x fd _ hmem _; simp at hmem
  | cons p rest ih =>
      intro d x fd hnd hmem hs
      obtain ⟨x', fd'⟩ := p
      simp only [keysOf, List.map_cons, List.nodup_cons] at hnd
      obtain ⟨hx', hndrest⟩ := hnd
      rcases List.mem_cons.mp hmem with heq | hmem2
      · injection heq with h1 h2
        subst h1
        subst h2
        simp only [List.foldl_cons]
        rw [postFold_preserve hooks rest _ x (by simpa [keysOf] using hx'),
            postStep_getField, if_pos rfl, if_pos hs]
      · exact ih (postStep hooks d (x', fd')) x fd hndrest hmem2 hs

theorem postFold_agree (hooks : String → Option (Value → Option Value)) :
    ∀ (fields : List (String × FieldDesc)) (d1 d2 : Doc),
      (keysOf fields).Nodup →
      (∀ y, secretKey fields y = false → getField d1 y = getField d2 y) →
      ∀ y, getField (List.foldl (postStep hooks) d1 fields) y =
        getField (List.foldl (postStep hooks) d2 fields) y := by
  intro fields
  induction fields with
  | nil => intro d1 d2 _ hagree y; exact hagree y (by simp [secretKey, lookupField])
  | cons p rest ih =>
      intro d1 d2 hnd hagree y
      obtain ⟨x, fd⟩ := p
      simp only [keysOf, List.map_cons, List.nodup_cons] at hnd
      obtain ⟨hx, hndrest⟩ := hnd
      simp only [List.foldl_cons]
      apply ih (postStep hooks d1 (x, fd)) (postStep hooks d2 (x, fd)) hndrest
      intro z hz
      rw [postStep_getField, postStep_getField]
      by_cases hzx : z = x
      · subst hzx
        rcases hs : fd.secret with _ | _
        · have hzs : secretKey ((z, fd) :: rest) z = false := by
            simp [secretKey, lookupField, hs]
          rw [hagree z hzs]
        · simp
      · rw [if_neg hzx, if_neg hzx]
        apply hagree z
        have hxz : ¬ x = z := fun h => hzx h.symm
        simpa [secretKey, lookupField, hxz] using hz

theorem handleRequest_sent_cases (usersFind : Value → Value → List Doc)
    (momentIsBeforeNow : Value → Bool) (collFind : Value → Option (List Doc))
    (cd : CollectionDescription) (accessType : AccessKey) (req : Req) :
    (handleRequest usersFind momentIsBeforeNow collFind cd accessType req).sent = none ∨
    (handleRequest usersFind momentIsBeforeNow collFind cd accessType req).sent =
      some .unauthorized ∨
    (handleRequest usersFind momentIsBeforeNow collFind cd accessType req).sent =
      some .malformedRequest ∨
    (handleRequest usersFind momentIsBeforeNow collFind cd accessType req).sent =
      some .resNotFound := by
  unfold handleRequest
  rcases huf : usersFind req.username req.user_token with _ | ⟨user, urest⟩ <;>
    simp only [huf]
  · by_cases hn : cd.name ≠ "Users" <;> simp [hn]
  · by_cases hexp : momentIsBeforeNow (getField user "token_disallow") = true
    · rw [if_pos hexp]
      simp
    · rw [if_neg hexp]
      by_cases hat : (accessType = .read ∨ accessType = .edit ∨ accessType = .delete)
      · rw [if_pos hat]
        rcases req.query with s | n | b | _ | _ | el | ol
        · rcases hcf : collFind (Value.vstr s) with _ | found <;> simp [hcf]
        · rcases hcf : collFind (Value.vnum n) with _ | found <;> simp [hcf]
        · rcases hcf : collFind (Value.vbool b) with _ | found <;> simp [hcf]
        · rcases hcf : collFind Value.vnull with _ | found <;> simp [hcf]
        · simp
        · rcases hcf : collFind (Value.varr el) with _ | found <;> simp [hcf]
        · rcases hcf : collFind (Value.vobj ol) with _ | found <;> simp [hcf]
      · rw [if_neg hat]
        simp

/-- C9: (1) in every successful query/read response, every declared
secret field is null in each returned document; (2) the post-processed
body of a returned document does not depend on the stored values of
secret fields: two stored documents agreeing on all non-secret fields
post-process to extensionally equal response documents. -/
theorem C9_secret_fields_nulled :
    (∀ (usersFind : Value → Value → List Doc) (momentIsBeforeNow : Value → Bool)
       (collFind : Value → Option (List Doc)) (cd : CollectionDescription)
       (preReadHooks : String → Option (Value → Option Value)) (req : Req)
       (out : List Doc),
      queryEndpoint usersFind momentIsBeforeNow collFind cd preReadHooks req =
        .dataDocs out →
      (keysOf cd.fields).Nodup →
      ∀ d ∈ out, ∀ p ∈ cd.fields, p.2.secret = true → getField d p.1 = .vnull) ∧
    (∀ (fields : List (String × FieldDesc))
       (preReadHooks : String → Option (Value → Option Value)) (d1 d2 : Doc),
      (keysOf fields).Nodup →
      (∀ y, secretKey fields y = false → getField d1 y = getField d2 y) →
      ∀ y, getField (postProcessDoc fields preReadHooks d1) y =
        getField (postProcessDoc fields preReadHooks d2) y) := by
  constructor
  · intro uf mibn cf cd hooks req out hq hnd d hd p hp hs
    have hsc := handleRequest_sent_cases uf mibn cf cd .read req
    unfold queryEndpoint at hq
    rcases hsent : (handleRequest uf mibn cf cd .read req).sent with _ | r
    · simp only [hsent] at hq
      rcases hval : (handleRequest uf mibn cf cd .read req).value with l | b
      · simp only [hval] at hq
        by_cases hlen : l.length > 0
        · rw [if_pos hlen] at hq
          have hout : l.map (postProcessDoc cd.fields hooks) = out := by
            cases hq
            rfl
          subst hout
          obtain ⟨a, _, hpd⟩ := List.mem_map.mp hd
          subst hpd
          exact postFold_secret hooks cd.fields a p.1 p.2 hnd (by simpa using hp) hs
        · rw [if_neg hlen] at hq
          cases hq
      · simp only [hval] at hq
        cases hq
    · rw [hsent] at hsc
      rcases hsc with h1 | h2 | h3 | h4
      · cases h1
      · injection h2 with h2b
        subst h2b
        simp only [hsent] at hq
        cases hq
      · injection h3 with h3b
        subst h3b
        simp only [hsent] at hq
        cases hq
      · injection h4 with h4b
        subst h4b
        simp only [hsent] at hq
        cases hq
  · intro fields hooks d1 d2 hnd hagree y
    exact postFold_agree hooks fields d1 d2 hnd hagree y

/-- C9 witness: a concrete successful query on the Tasks collection
returns the stored document with its secret `apikey` field nulled. -/
theorem C9_secret_fields_nulled_witness :
    getField (postProcessDoc tasksCd.fields (fun _ => none)
      [("title", Value.vstr "t"), ("apikey", Value.vstr "s")]) "apikey" = .vnull :=
  C9_secret_fields_nulled.1 (fun _ _ => [aliceUserDoc]) (fun _ => false)
    (fun _ => some [[("title", Value.vstr "t"), ("apikey", Value.vstr "s")]])
    tasksCd (fun _ => none) baseReq
    [postProcessDoc tasksCd.fields (fun _ => none)
      [("title", Value.vstr "t"), ("apikey", Value.vstr "s")]]
    (by rfl) (by decide)
    (postProcessDoc tasksCd.fields (fun _ => none)
      [("title", Value.vstr "t"), ("apikey", Value.vstr "s")])
    (by simp)
    ("apikey", secretStringField)
    (by simp [tasksCd, tasksFields]) rfl
